import Mathlib

/-!
Shallow embedding of `internal/clients-service/service/service.go` from the
trainingsvc-clients repository, together with proofs about the claims of its
specification.

The service keeps two tables, `clients(id, name, birthday NULLABLE, score,
created_at NULLABLE)` and `client_matches(id AUTO_INCREMENT, client_id, score)`.
The database state is modelled as explicit lists of rows; every operation of
`service.go` becomes a Lean function on that state.  Machine integers are
modelled as `Int` with explicit two-complement wrapping where Go overflow
matters.  Fallible operations return `Except`.
-/

namespace Svc

/-- Two-complement wrap of an integer into the signed 64-bit range; this is the
semantics Go gives to `int64` overflow (the Go spec defines signed overflow to
wrap around). -/
def int64wrap (x : Int) : Int := (x + 2 ^ 63) % 2 ^ 64 - 2 ^ 63

/-- The value of `time.Time\x7b\x7d.UnixNano()` in Go: the zero time is
0001-01-01T00:00:00 UTC, whose Unix time in seconds is -62135596800; Go
multiplies by 1e9 with wrapping int64 arithmetic.  `GetClients` produces this
value for a NULL `birthday` or `created_at` column, because `sql.NullTime`
leaves its `Time` field at the zero time when the column is NULL and the code
calls `.Time.UnixNano()` unconditionally (service.go lines 140 and 142). -/
def zeroTimeUnixNano : Int := int64wrap (-62135596800 * 1000000000)

/-- A row of the `clients` table.  `birthday` and `created_at` are nullable
timestamps (Unix nanoseconds).  `initScore` is a ghost field recording the
score the row was created with; no operation ever reads it, it exists only so
that the creation-time score of the §3 invariant of the spec can be stated. -/
structure Client where
  id : String
  name : String
  birthday : Option Int
  score : Int
  createdAt : Option Int
  initScore : Int
deriving DecidableEq

/-- A row of the `client_matches` table. -/
structure MatchRow where
  id : Int
  clientId : String
  score : Int
deriving DecidableEq

/-- The database state: the two tables plus the auto-increment counter of
`client_matches`. -/
structure State where
  clients : List Client
  matchRows : List MatchRow
  nextMatchId : Int
deriving DecidableEq

/-- Errors surfaced by the storage layer. -/
inductive SqlError
  | parseError
  | dupKey
  | execError
deriving DecidableEq

/-- The request of `NewClient` (pb.NewClientRequest): `birthday` is a plain
int64 of Unix nanoseconds, zero when the caller did not set it. -/
structure NewClientRequest where
  name : String
  birthday : Int
  score : Int
deriving DecidableEq

/-- The column list built by `NewClient` (service.go lines 54-62): `id`,
`name`, then `birthday` only when `req.Birthday != 0`, then `score`. -/
def newClientCols (req : NewClientRequest) : List String :=
  ["id", "name"] ++ (if req.birthday ≠ 0 then ["birthday"] else []) ++ ["score"]

/-- The row inserted by `NewClient`: the birthday column is present exactly
when `req.Birthday != 0` (stored as `time.Unix(0, req.Birthday)`, i.e. the
same nanosecond count), and `created_at` is set by the storage layer at insert
time (`now`). -/
def insertedClientRow (id : String) (req : NewClientRequest) (now : Int) : Client :=
  { id := id
    name := req.name
    birthday := if req.birthday ≠ 0 then some req.birthday else none
    score := req.score
    createdAt := some now
    initScore := req.score }

/-- `NewClient` (service.go lines 51-76): inserts the new row; the INSERT
fails on a duplicate primary key. -/
def newClient (s : State) (id : String) (req : NewClientRequest) (now : Int) :
    Except SqlError (State × String) :=
  if (s.clients.map Client.id).contains id then .error .dupKey
  else .ok ({ s with clients := s.clients ++ [insertedClientRow id req now] }, id)

/-- The effect of `UPDATE clients SET score = score + ? WHERE id = ?` on one
row (service.go line 162). -/
def bumpScore (cid : String) (delta : Int) (c : Client) : Client :=
  if c.id = cid then { c with score := c.score + delta } else c

/-- The state after the happy path of `NewMatch` (service.go lines 148-167):
one `client_matches` row inserted with the auto-increment id, and the UPDATE
applied to every `clients` row whose id is the requested client id. -/
def execNewMatch (s : State) (cid : String) (delta : Int) : State :=
  { clients := s.clients.map (bumpScore cid delta)
    matchRows := s.matchRows ++ [⟨s.nextMatchId, cid, delta⟩]
    nextMatchId := s.nextMatchId + 1 }

/-- An open transaction: the snapshot it started from, the pending state, and
whether `Rollback` has been called. -/
structure Tx where
  base : State
  cur : State
  rolledBack : Bool

/-- `tx.Rollback()`: marks the transaction rolled back; a later `Commit` on a
finalized transaction is a no-op (returns ErrTxDone, ignored by the deferred
call in the source). -/
def Tx.rollback (t : Tx) : Tx := { t with rolledBack := true }

/-- The state the database is left in once the transaction is finalized: the
pending state if it committed, the snapshot if it was rolled back. -/
def Tx.commit (t : Tx) : State := if t.rolledBack then t.base else t.cur

/-- `NewMatch` (service.go lines 148-167) with failure injection for its two
statements.  The control flow mirrors the source: `defer tx.Commit()` runs on
every return path; on each error path `tx.Rollback()` is called first, and the
error is returned. -/
def newMatchTx (s : State) (cid : String) (delta : Int)
    (insertFails updateFails : Bool) : State × Except SqlError Int :=
  let t : Tx := ⟨s, s, false⟩
  if insertFails then
    (t.rollback.commit, .error .execError)
  else
    let t : Tx := { t with cur :=
      { t.cur with matchRows := t.cur.matchRows ++ [⟨s.nextMatchId, cid, delta⟩]
                   nextMatchId := t.cur.nextMatchId + 1 } }
    let mid := s.nextMatchId
    if updateFails then
      (t.rollback.commit, .error .execError)
    else
      let t : Tx := { t with cur :=
        { t.cur with clients := t.cur.clients.map (bumpScore cid delta) } }
      (t.commit, .ok mid)

/-- The wire representation of a client (pb.Client): all fields plain values,
times as Unix nanoseconds. -/
structure PbClient where
  id : String
  name : String
  birthday : Int
  score : Int
  createdAt : Int
deriving DecidableEq

/-- Decoding of a nullable time column by `GetClients`: a present value is
returned as its nanosecond count; NULL leaves `sql.NullTime.Time` at the zero
time and the code calls `.UnixNano()` on it, yielding `zeroTimeUnixNano`. -/
def decodeTime : Option Int → Int
  | some n => n
  | none => zeroTimeUnixNano

/-- The row-to-wire mapping of `GetClients` (service.go lines 136-144). -/
def decodeClient (c : Client) : PbClient :=
  ⟨c.id, c.name, decodeTime c.birthday, c.score, decodeTime c.createdAt⟩

/-- `GetClients` (service.go lines 113-146).  The statement is built as
`... WHERE id IN (` ++ `sq.Placeholders(len(ids))` ++ `)`.  With an empty id
list `Placeholders(0)` is the empty string, so the statement contains
`id IN ()`, which MySQL rejects with a syntax error (ER_PARSE_ERROR: an IN
list must be non-empty); `SelectContext` then returns that error.  With a
non-empty list the statement selects exactly the rows whose id is in the
list and maps them through `decodeClient`. -/
def getClients (s : State) (ids : List String) : Except SqlError (List PbClient) :=
  if ids.isEmpty then .error .parseError
  else .ok ((s.clients.filter (fun c => decide (c.id ∈ ids))).map decodeClient)

/-- The state after `DELETE FROM clients WHERE id = ?` (service.go line 170). -/
def delState (s : State) (id : String) : State :=
  { s with clients := s.clients.filter (fun c => decide (c.id ≠ id)) }

/-- `DeleteClient` (service.go lines 169-174): executes the DELETE and returns
success; a DELETE matching zero rows is not an error in MySQL and the code
never inspects the affected-row count. -/
def deleteClient (s : State) (id : String) : Except SqlError State :=
  .ok (delState s id)

/-- A bound SQL parameter value. -/
inductive SqlVal
  | str : String → SqlVal
  | int : Int → SqlVal
deriving DecidableEq

/-- The operator of a range filter, per §4.1 of the spec. -/
inductive RangeOp
  | lt
  | le
  | gt
  | ge
  | eq
  | between
deriving DecidableEq

/-- A populated range filter: `v2` is only meaningful for `between`. -/
structure RangeFilter where
  op : RangeOp
  v1 : Int
  v2 : Int
deriving DecidableEq

/-- Modelled from the spec: the `Where` method of the protobuf range-filter
types (`req.Birthday.Where("birthday", rq)` etc., service.go lines 87-94)
lives in the repository `protos/pb` package, which is not under `src/`.
Per §4.1 of the spec it contributes exactly one clause with its value(s) as
bound parameters: `col = ?`, `col < ?`, `col <= ?`, `col > ?`, `col >= ?`, or
`col BETWEEN ? AND ?` with two bound values. -/
def RangeFilter.clause (f : RangeFilter) (col : String) : String × List SqlVal :=
  match f.op with
  | .lt => (col ++ " < ?", [.int f.v1])
  | .le => (col ++ " <= ?", [.int f.v1])
  | .gt => (col ++ " > ?", [.int f.v1])
  | .ge => (col ++ " >= ?", [.int f.v1])
  | .eq => (col ++ " = ?", [.int f.v1])
  | .between => (col ++ " BETWEEN ? AND ?", [.int f.v1, .int f.v2])

/-- The request of `QueryClients`: every filter optional. -/
structure QueryClientsRequest where
  id : Option String
  name : Option String
  birthday : Option RangeFilter
  score : Option RangeFilter
  createdAt : Option RangeFilter
deriving DecidableEq

/-- The WHERE parts accumulated by `QueryClients` (service.go lines 80-95), in
source order.  Each part is the clause text handed to squirrel `Where` plus
the arguments bound with it; squirrel `Where` with a string predicate passes
both through verbatim.  Note line 81: `rq.Where("id", req.Id.Value)` hands
squirrel the bare text `"id"` (no placeholder) together with one bound
argument. -/
def whereParts (req : QueryClientsRequest) : List (String × List SqlVal) :=
  (match req.id with
   | some v => [("id", [SqlVal.str v])]
   | none => []) ++
  (match req.name with
   | some v => [("name LIKE ?", [SqlVal.str v])]
   | none => []) ++
  (match req.birthday with
   | some f => [f.clause "birthday"]
   | none => []) ++
  (match req.score with
   | some f => [f.clause "score"]
   | none => []) ++
  (match req.createdAt with
   | some f => [f.clause "created_at"]
   | none => [])

/-- Squirrel joins the accumulated WHERE parts with AND. -/
def joinAnd : List String → String
  | [] => ""
  | [x] => x
  | x :: xs => x ++ " AND " ++ joinAnd xs

/-- The statement text and bound-parameter list produced by
`QueryClients`'s builder chain (service.go lines 79-99): squirrel
concatenates the WHERE parts in the order they were added and appends each
part's arguments in the same order. -/
def queryClientsStmt (req : QueryClientsRequest) : String × List SqlVal :=
  let parts := whereParts req
  let sql := "SELECT id FROM clients" ++
    (if parts.isEmpty then "" else " WHERE " ++ joinAnd (parts.map Prod.fst)) ++
    " ORDER BY score DESC"
  (sql, (parts.map Prod.snd).flatten)

/-- The number of positional placeholders in a statement. -/
def countPlaceholders (s : String) : Nat := s.data.count '?'

/-- The row order produced by `ORDER BY score DESC`: any permutation of the
table that is sorted by descending score (ties in storage-default order; for
a linear key the sorted sequence of scores is unique). -/
def sortScoreDesc (l : List Client) : List Client :=
  List.insertionSort (fun a b => b.score ≤ a.score) l

/-- Execution of `QueryClients` when no filter is populated (service.go lines
97-110): `SELECT id FROM clients ORDER BY score DESC` returns every client id,
score-descending. -/
def queryClientsNoFilter (s : State) : List String :=
  (sortScoreDesc s.clients).map Client.id

/-- Lexicographic strictly-less-than on character lists, comparing code
points; for UTF-8 encoded strings this coincides with Go's byte-wise string
comparison `<`. -/
def lexLtb : List Char → List Char → Bool
  | _, [] => false
  | [], _ :: _ => true
  | a :: as, b :: bs =>
      if a.toNat < b.toNat then true
      else if b.toNat < a.toNat then false
      else lexLtb as bs

/-- Go string comparison `a < b`. -/
def strLtb (a b : String) : Bool := lexLtb a.data b.data

/-- Go string comparison `a <= b` (the total order `sort.Strings` sorts by). -/
def strLeb (a b : String) : Bool := !(strLtb b a)

/-- `sort.Strings` (service.go line 186): sorts ascending in byte/codepoint
lexicographic order.  Since `strLeb` is total, transitive and antisymmetric,
the ascending permutation of a list is unique, so any correct sort — in
particular Go's — produces exactly this list. -/
def sortStrings (items : List String) : List String :=
  List.insertionSort (fun a b => strLeb a b = true) items

/-- The dedup loop of `Sort` (service.go lines 194-199): walk the sorted
items, appending each item that differs from the current pivot and making it
the new pivot. -/
def uniqueLoop : List String → String → List String → List String
  | [], _, acc => acc
  | x :: xs, pivot, acc =>
      if x = pivot then uniqueLoop xs pivot acc
      else uniqueLoop xs x (acc ++ [x])

/-- The `Sort` RPC (service.go lines 183-202; named `SortItems` here because
`Sort` is a Lean keyword).  When `RemoveDuplicates` is set the code reads
`items[0]` with no emptiness check (line 192); on an empty input slice that
indexing operation panics at runtime, modelled as `none`. -/
def SortItems (items : List String) (removeDuplicates : Bool) : Option (List String) :=
  let sorted := sortStrings items
  if !removeDuplicates then some sorted
  else
    match sorted with
    | [] => none
    | pivot :: _ => some (uniqueLoop sorted pivot [pivot])

/-- Functional form of `uniqueLoop` without the accumulator, for proofs. -/
def keep : List String → String → List String
  | [], _ => []
  | x :: xs, pivot => if x = pivot then keep xs pivot else x :: keep xs x

/-- The service operations that touch the `clients` / `client_matches`
tables, as a single step type for stating the score invariant. -/
inductive Op
  | newClient : String → NewClientRequest → Int → Op
  | newMatch : String → Int → Op
  | deleteClient : String → Op
  | deleteAll : Op

/-- One step of the service: the state after the operation finished
(unchanged when the statement failed, e.g. a duplicate-key INSERT). -/
def execOp (s : State) : Op → State
  | .newClient id req now =>
      match newClient s id req now with
      | .ok r => r.1
      | .error _ => s
  | .newMatch cid delta => execNewMatch s cid delta
  | .deleteClient id => delState s id
  | .deleteAll => { s with clients := [] }

/-- Sum of the `score` deltas of all `client_matches` rows referencing a
client id. -/
def matchSum (ms : List MatchRow) (cid : String) : Int :=
  ((ms.filter (fun m => decide (m.clientId = cid))).map MatchRow.score).sum

/-- The §3 invariant of the spec: every client's stored score equals its
creation-time score plus the sum of the deltas of the match rows referencing
it. -/
def ScoreInv (s : State) : Prop :=
  ∀ c ∈ s.clients, c.score = c.initScore + matchSum s.matchRows c.id

/-- Well-formedness: client ids are unique (the primary key of `clients`). -/
def IdsNodup (s : State) : Prop := (s.clients.map Client.id).Nodup

/-- Side condition on a step: an id generated for `NewClient` is fresh, i.e.
no existing match row references it.  This models the collision-resistant
external ID generator of §1 of the spec. -/
def FreshOk (s : State) : Op → Prop
  | .newClient id _ _ => ∀ m ∈ s.matchRows, m.clientId ≠ id
  | _ => True

/-- A trace of operations each of whose steps satisfies `FreshOk`. -/
def TraceOk : State → List Op → Prop
  | _, [] => True
  | s, op :: ops => FreshOk s op ∧ TraceOk (execOp s op) ops

/-! Concrete fixtures used by witnesses and counterexamples. -/

/-- A client row with NULL `birthday` and NULL `created_at`. -/
def c0 : Client := ⟨"a", "alice", none, 0, none, 0⟩

/-- A one-client store with no match rows. -/
def s0 : State := ⟨[c0], [], 1⟩

/-- A client row with NULL `birthday` but a present `created_at`. -/
def cB : Client := ⟨"b", "bert", none, 3, some 1700000000000000000, 3⟩

/-- A store holding one row with both times NULL and one row with only the
birthday NULL. -/
def sB : State := ⟨[c0, cB], [], 1⟩

/-- A query request with only the id filter populated. -/
def reqIdOnly : QueryClientsRequest := ⟨some "abc", none, none, none, none⟩

/-! Facts about the lexicographic comparison. -/

lemma lexLtb_nil_right : ∀ (x : List Char), lexLtb x [] = false
  | [] => rfl
  | _ :: _ => rfl

lemma lexLtb_irrefl : ∀ (l : List Char), lexLtb l l = false
  | [] => rfl
  | a :: as => by
      simp only [lexLtb, lt_self_iff_false, if_false]
      exact lexLtb_irrefl as

lemma lexLtb_asymm : ∀ (x y : List Char), lexLtb x y = true → lexLtb y x = false
  | x, [], h => by rw [lexLtb_nil_right] at h; cases h
  | [], _ :: _, _ => rfl
  | a :: as, b :: bs, h => by
      simp only [lexLtb] at h ⊢
      by_cases h1 : a.toNat < b.toNat
      · rw [if_neg (by omega), if_pos h1]
      · rw [if_neg h1] at h
        by_cases h2 : b.toNat < a.toNat
        · rw [if_pos h2] at h; cases h
        · rw [if_neg h2] at h
          rw [if_neg h2, if_neg h1]
          exact lexLtb_asymm as bs h

lemma lexLtb_connex : ∀ (x y : List Char), lexLtb x y = false → lexLtb y x = false → x = y
  | [], [], _, _ => rfl
  | [], _ :: _, h, _ => by cases h
  | _ :: _, [], _, h => by cases h
  | a :: as, b :: bs, h1, h2 => by
      simp only [lexLtb] at h1 h2
      by_cases hab : a.toNat < b.toNat
      · rw [if_pos hab] at h1; cases h1
      · by_cases hba : b.toNat < a.toNat
        · rw [if_pos hba] at h2; cases h2
        · rw [if_neg hab, if_neg hba] at h1
          rw [if_neg hba, if_neg hab] at h2
          have hn : a.toNat = b.toNat := by omega
          have hc : a = b := Char.ext (UInt32.ext hn)
          rw [hc, lexLtb_connex as bs h1 h2]

lemma lexLtb_le_trans : ∀ (x y z : List Char),
    lexLtb y x = false → lexLtb z y = false → lexLtb z x = false
  | [], y, z, _, _ => lexLtb_nil_right z
  | a :: as, y, [], h1, h2 => by
      cases y with
      | nil => cases h1
      | cons b bs => cases h2
  | a :: as, y, c :: cs, h1, h2 => by
      cases y with
      | nil => cases h1
      | cons b bs =>
          simp only [lexLtb] at h1 h2 ⊢
          by_cases hba : b.toNat < a.toNat
          · rw [if_pos hba] at h1; cases h1
          · by_cases hcb : c.toNat < b.toNat
            · rw [if_pos hcb] at h2; cases h2
            · rw [if_neg hba] at h1
              rw [if_neg hcb] at h2
              rw [if_neg (by omega : ¬ c.toNat < a.toNat)]
              by_cases hac : a.toNat < c.toNat
              · rw [if_pos hac]
              · rw [if_neg hac]
                have hab : ¬ a.toNat < b.toNat := by omega
                have hbc : ¬ b.toNat < c.toNat := by omega
                rw [if_neg hab] at h1
                rw [if_neg hbc] at h2
                exact lexLtb_le_trans as bs cs h1 h2

lemma lexLtb_lt_trans : ∀ (x y z : List Char),
    lexLtb x y = true → lexLtb y z = true → lexLtb x z = true
  | x, y, [], _, h2 => by rw [lexLtb_nil_right] at h2; cases h2
  | x, [], c :: cs, h1, _ => by rw [lexLtb_nil_right] at h1; cases h1
  | [], b :: bs, c :: cs, _, _ => rfl
  | a :: as, b :: bs, c :: cs, h1, h2 => by
      simp only [lexLtb] at h1 h2 ⊢
      by_cases hab : a.toNat < b.toNat
      · by_cases hbc : b.toNat < c.toNat
        · rw [if_pos (by omega : a.toNat < c.toNat)]
        · rw [if_neg hbc] at h2
          by_cases hcb : c.toNat < b.toNat
          · rw [if_pos hcb] at h2; cases h2
          · rw [if_pos (by omega : a.toNat < c.toNat)]
      · rw [if_neg hab] at h1
        by_cases hba : b.toNat < a.toNat
        · rw [if_pos hba] at h1; cases h1
        · rw [if_neg hba] at h1
          by_cases hbc : b.toNat < c.toNat
          · rw [if_pos (by omega : a.toNat < c.toNat)]
          · rw [if_neg hbc] at h2
            by_cases hcb : c.toNat < b.toNat
            · rw [if_pos hcb] at h2; cases h2
            · rw [if_neg hcb] at h2
              rw [if_neg (by omega : ¬ a.toNat < c.toNat)]
              rw [if_neg (by omega : ¬ c.toNat < a.toNat)]
              exact lexLtb_lt_trans as bs cs h1 h2

lemma eq_of_data_eq {a b : String} (h : a.data = b.data) : a = b := by
  cases a; cases b; simp only at h; rw [h]

lemma strLeb_total (a b : String) : strLeb a b = true ∨ strLeb b a = true := by
  unfold strLeb strLtb
  by_cases h : lexLtb b.data a.data = true
  · right
    rw [lexLtb_asymm b.data a.data h]
    rfl
  · left
    rw [Bool.not_eq_true] at h
    rw [h]
    rfl

lemma strLeb_trans {a b c : String} (h1 : strLeb a b = true) (h2 : strLeb b c = true) :
    strLeb a c = true := by
  unfold strLeb strLtb at h1 h2 ⊢
  rw [Bool.not_eq_eq_eq_not, Bool.not_true] at h1 h2 ⊢
  exact lexLtb_le_trans a.data b.data c.data h1 h2

lemma strLtb_trans {a b c : String} (h1 : strLtb a b = true) (h2 : strLtb b c = true) :
    strLtb a c = true :=
  lexLtb_lt_trans a.data b.data c.data h1 h2

lemma strLtb_ne {a b : String} (h : strLtb a b = true) : a ≠ b := by
  intro hEq
  rw [hEq] at h
  rw [strLtb, lexLtb_irrefl] at h
  cases h

lemma strLeb_of_strLtb {a b : String} (h : strLtb a b = true) : strLeb a b = true := by
  unfold strLeb strLtb
  rw [lexLtb_asymm a.data b.data h]
  rfl

lemma strLtb_of_strLeb_ne {a b : String} (h1 : strLeb a b = true) (h2 : a ≠ b) :
    strLtb a b = true := by
  unfold strLeb at h1
  unfold strLtb at h1 ⊢
  rw [Bool.not_eq_eq_eq_not, Bool.not_true] at h1
  by_cases h : lexLtb a.data b.data = true
  · exact h
  · rw [Bool.not_eq_true] at h
    exact absurd (eq_of_data_eq (lexLtb_connex a.data b.data h h1)) h2

lemma sortStrings_sorted (items : List String) :
    (sortStrings items).Sorted (fun a b => strLeb a b = true) := by
  haveI : IsTotal String (fun a b => strLeb a b = true) := ⟨strLeb_total⟩
  haveI : IsTrans String (fun a b => strLeb a b = true) := ⟨fun a b c => strLeb_trans⟩
  exact List.sorted_insertionSort _ items

lemma sortStrings_perm (items : List String) : List.Perm (sortStrings items) items :=
  List.perm_insertionSort _ items

/-! Facts about the dedup loop of `Sort`. -/

lemma uniqueLoop_eq : ∀ (l : List String) (pivot : String) (acc : List String),
    uniqueLoop l pivot acc = acc ++ keep l pivot
  | [], _, acc => by simp [uniqueLoop, keep]
  | x :: xs, pivot, acc => by
      simp only [uniqueLoop, keep]
      by_cases h : x = pivot
      · rw [if_pos h, if_pos h, uniqueLoop_eq xs pivot acc]
      · rw [if_neg h, if_neg h, uniqueLoop_eq xs x (acc ++ [x])]
        simp

lemma chain_keep : ∀ (l : List String) (pivot : String),
    List.Chain (fun a b => strLeb a b = true) pivot l →
    List.Chain (fun a b => strLtb a b = true) pivot (keep l pivot)
  | [], _, _ => List.Chain.nil
  | x :: xs, pivot, h => by
      rw [List.chain_cons] at h
      obtain ⟨hle, hch⟩ := h
      simp only [keep]
      by_cases hx : x = pivot
      · rw [if_pos hx]
        exact chain_keep xs pivot (hx ▸ hch)
      · rw [if_neg hx]
        rw [List.chain_cons]
        exact ⟨strLtb_of_strLeb_ne hle (fun hpx => hx hpx.symm), chain_keep xs x hch⟩

lemma mem_keep_iff : ∀ (l : List String) (pivot a : String),
    (a ∈ pivot :: keep l pivot) ↔ a ∈ pivot :: l
  | [], _, a => Iff.rfl
  | x :: xs, pivot, a => by
      simp only [keep]
      by_cases hx : x = pivot
      · rw [if_pos hx]
        subst hx
        have ih := mem_keep_iff xs x a
        simp only [List.mem_cons] at ih ⊢
        tauto
      · rw [if_neg hx]
        have ih := mem_keep_iff xs x a
        simp only [List.mem_cons] at ih ⊢
        tauto

/-- What `Sort` returns on a non-empty input with `RemoveDuplicates` set: the
head of the sorted list followed by the deduplicated tail. -/
lemma sortItems_true_eq (items : List String) (p : String) (rest : List String)
    (hsort : sortStrings items = p :: rest) :
    SortItems items true = some (p :: keep rest p) := by
  have h2 : uniqueLoop (p :: rest) p [p] = p :: keep rest p := by
    rw [show uniqueLoop (p :: rest) p [p] = uniqueLoop rest p [p] from by
      simp [uniqueLoop]]
    rw [uniqueLoop_eq rest p [p]]
    rfl
  simp only [SortItems, hsort, Bool.not_true, Bool.false_eq_true, if_false]
  exact congrArg some h2

/-! Facts about the score ledger. -/

lemma bumpScore_id (cid : String) (d : Int) (c : Client) :
    (bumpScore cid d c).id = c.id := by
  unfold bumpScore
  split <;> rfl

lemma bumpScore_of_eq {c : Client} {cid : String} (d : Int) (h : c.id = cid) :
    bumpScore cid d c = { c with score := c.score + d } := by
  unfold bumpScore
  rw [if_pos h]

lemma matchSum_append_single (ms : List MatchRow) (m : MatchRow) (cid : String) :
    matchSum (ms ++ [m]) cid
      = matchSum ms cid + (if m.clientId = cid then m.score else 0) := by
  unfold matchSum
  rw [List.filter_append]
  by_cases h : m.clientId = cid
  · simp [h]
  · simp [h]

lemma matchSum_eq_zero {ms : List MatchRow} {id : String}
    (h : ∀ m ∈ ms, m.clientId ≠ id) : matchSum ms id = 0 := by
  unfold matchSum
  rw [List.filter_eq_nil_iff.mpr ?hnil]
  · rfl
  case hnil =>
    intro m hm
    simp only [decide_eq_true_eq]
    exact h m hm

lemma scoreInv_execOp {s : State} {op : Op} (hInv : ScoreInv s) (hF : FreshOk s op) :
    ScoreInv (execOp s op) := by
  cases op with
  | newClient id req now =>
      have hF2 : ∀ m ∈ s.matchRows, m.clientId ≠ id := hF
      simp only [execOp, newClient]
      by_cases hdup : (s.clients.map Client.id).contains id = true
      · simp only [hdup, if_true]
        exact hInv
      · rw [Bool.not_eq_true] at hdup
        simp only [hdup, Bool.false_eq_true, if_false]
        intro c hc
        rcases List.mem_append.mp hc with hold | hnew
        · exact hInv c hold
        · rcases List.mem_singleton.mp hnew with rfl
          show req.score = req.score + matchSum s.matchRows id
          rw [matchSum_eq_zero hF2]
          omega
  | newMatch cid delta =>
      intro c hc
      simp only [execOp, execNewMatch] at hc ⊢
      obtain ⟨c1, hc1, rfl⟩ := List.mem_map.mp hc
      have h1 := hInv c1 hc1
      rw [matchSum_append_single]
      rw [show (⟨s.nextMatchId, cid, delta⟩ : MatchRow).clientId = cid from rfl]
      rw [bumpScore_id]
      unfold bumpScore
      by_cases hid : c1.id = cid
      · rw [if_pos hid]
        rw [if_pos hid.symm]
        show c1.score + delta = c1.initScore + (matchSum s.matchRows c1.id + delta)
        omega
      · rw [if_neg hid]
        rw [if_neg (fun h => hid h.symm)]
        omega
  | deleteClient id =>
      intro c hc
      simp only [execOp, delState] at hc ⊢
      exact hInv c (List.mem_of_mem_filter hc)
  | deleteAll =>
      intro c hc
      simp only [execOp] at hc
      cases hc

lemma scoreInv_trace : ∀ (ops : List Op) (s : State), ScoreInv s → TraceOk s ops →
    ScoreInv (ops.foldl execOp s)
  | [], _, h, _ => h
  | op :: ops, s, h, ht =>
      scoreInv_trace ops (execOp s op) (scoreInv_execOp h ht.1) ht.2

/-- In a table with unique ids, selecting by one id that belongs to a row of
the table yields exactly that row. -/
lemma filter_id_single : ∀ (l : List Client) (cid : String) (c : Client),
    (l.map Client.id).Nodup → c ∈ l → c.id = cid →
    l.filter (fun x => decide (x.id = cid)) = [c]
  | [], _, c, _, hc, _ => absurd hc (List.not_mem_nil c)
  | x :: xs, cid, c, hnd, hc, hid => by
      rw [List.map_cons, List.nodup_cons] at hnd
      obtain ⟨hx, hxs⟩ := hnd
      rcases List.mem_cons.mp hc with rfl | hc2
      · rw [List.filter_cons, if_pos (by simp [hid])]
        have hrest : xs.filter (fun y => decide (y.id = cid)) = [] := by
          rw [List.filter_eq_nil_iff]
          intro y hy
          simp only [decide_eq_true_eq]
          intro hyid
          exact hx (by rw [hid, ← hyid]; exact List.mem_map_of_mem Client.id hy)
        rw [hrest]
      · have hxid : ¬ x.id = cid := by
          intro hEq
          apply hx
          rw [hEq, ← hid]
          exact List.mem_map_of_mem Client.id hc2
        rw [List.filter_cons, if_neg (by simp [hxid])]
        exact filter_id_single xs cid c hxs hc2 hid

/-- `Get([cid])` right after a successful `NewMatch(cid, d)`: the one returned
record carries the old score plus `d`. -/
lemma getClients_after_newMatch (s : State) (cid : String) (d : Int) (c : Client)
    (hWf : IdsNodup s) (hc : c ∈ s.clients) (hid : c.id = cid) :
    getClients (execNewMatch s cid d) [cid]
      = .ok [decodeClient { c with score := c.score + d }] := by
  unfold getClients
  rw [if_neg (by simp)]
  show Except.ok ((((execNewMatch s cid d).clients.filter
      (fun x => decide (x.id ∈ [cid]))).map decodeClient)) = _
  simp only [execNewMatch]
  rw [List.filter_map]
  have hcongr : ∀ x ∈ s.clients,
      ((fun x => decide (x.id ∈ [cid])) ∘ bumpScore cid d) x = decide (x.id = cid) := by
    intro x hx
    simp [Function.comp, bumpScore_id]
  rw [List.filter_congr hcongr]
  rw [filter_id_single s.clients cid c hWf hc hid]
  rw [List.map_singleton, List.map_singleton, bumpScore_of_eq d hid]

/-! Claim theorems. -/

/-- Claim C1: along any trace of operations whose generated ids are fresh, at
every quiescent point each client's stored score equals its creation-time
score plus the sum of the deltas of all match rows referencing it; and after
a successful `RecordMatch(cid, delta)`, `Get([cid])` shows the score
increased by exactly `delta`. -/
theorem c1_score_invariant (s : State) (ops : List Op) (cid : String) (delta : Int)
    (c : Client) (hInv : ScoreInv s) (hT : TraceOk s ops) (hWf : IdsNodup s)
    (hc : c ∈ s.clients) (hid : c.id = cid) :
    ScoreInv (ops.foldl execOp s)
    ∧ getClients (execNewMatch s cid delta) [cid]
        = .ok [decodeClient { c with score := c.score + delta }] :=
  ⟨scoreInv_trace ops s hInv hT, getClients_after_newMatch s cid delta c hWf hc hid⟩

/-- Witness for C1 on a concrete one-client store and one recorded match. -/
theorem c1_score_invariant_witness :
    ScoreInv ([Op.newMatch "a" 5].foldl execOp s0)
    ∧ getClients (execNewMatch s0 "a" 5) ["a"]
        = .ok [decodeClient { c0 with score := c0.score + 5 }] :=
  c1_score_invariant s0 [Op.newMatch "a" 5] "a" 5 c0
    (by intro c hc; rcases List.mem_singleton.mp hc with rfl; rfl)
    ⟨trivial, trivial⟩
    (by unfold IdsNodup; decide)
    (by decide) rfl

/-- Claim C2 fails on the code: with the id filter populated, the generated
statement binds one parameter but contains zero placeholders, because
service.go line 81 hands squirrel the bare predicate text `id` instead of
`id = ?`.  This theorem evaluates the builder at that failing input. -/
theorem c2_id_filter_placeholder_mismatch :
    (queryClientsStmt reqIdOnly).1 = "SELECT id FROM clients WHERE id ORDER BY score DESC"
    ∧ countPlaceholders (queryClientsStmt reqIdOnly).1 = 0
    ∧ (queryClientsStmt reqIdOnly).2.length = 1 := by decide

/-- Claim C3: if the match-insert or the score-update statement of
`RecordMatch` fails, the transaction is rolled back, the operation returns an
error, and the database is left exactly as it was (no partial state); on the
happy path both effects are committed atomically. -/
theorem c3_newmatch_rollback (s : State) (cid : String) (delta : Int)
    (insertFails updateFails : Bool) (h : insertFails = true ∨ updateFails = true) :
    (newMatchTx s cid delta insertFails updateFails).1 = s
    ∧ (newMatchTx s cid delta insertFails updateFails).2 = .error .execError
    ∧ newMatchTx s cid delta false false = (execNewMatch s cid delta, .ok s.nextMatchId) := by
  have hkey : newMatchTx s cid delta insertFails updateFails = (s, .error .execError) := by
    rcases h with h | h
    · subst h; rfl
    · subst h; cases insertFails <;> rfl
  refine ⟨by rw [hkey], by rw [hkey], rfl⟩

/-- Witness for C3: a failing score update on the concrete store rolls the
transaction back. -/
theorem c3_newmatch_rollback_witness :
    (newMatchTx s0 "a" 5 false true).1 = s0
    ∧ (newMatchTx s0 "a" 5 false true).2 = .error .execError
    ∧ newMatchTx s0 "a" 5 false false = (execNewMatch s0 "a" 5, .ok s0.nextMatchId) :=
  c3_newmatch_rollback s0 "a" 5 false true (Or.inr rfl)

/-- Claim C4 is right and the code is wrong: with `remove_duplicates` set,
`Sort` reads `items[0]` without an emptiness check (service.go line 192), so
the empty input panics (modelled as `none`) instead of returning `[]`; the
no-dedup path on the same input is fine. -/
theorem c4_sort_empty_dereferences_head :
    SortItems [] true = none ∧ SortItems [] false = some [] :=
  ⟨rfl, rfl⟩

/-- Claim C5 is right and the code is wrong: `Get([])` builds the statement
`... WHERE id IN ()`, which the storage engine rejects as a syntax error, so
the call returns an error instead of an empty list. -/
theorem c5_get_empty_ids_errors (s : State) :
    getClients s [] = .error .parseError := rfl

/-- Counterexample to claim C6 as stated: a stored row with NULL `birthday`
and NULL `created_at` is decoded without failing, but the returned record
carries `-6795364578871345152` — the int64-wrapped `UnixNano` of Go's zero
time — in those fields, not an unset/zero value. -/
theorem c6_counterexample_null_decodes_nonzero :
    getClients s0 ["a"]
      = .ok [⟨"a", "alice", -6795364578871345152, 0, -6795364578871345152⟩]
    ∧ (-6795364578871345152 : Int) ≠ 0 :=
  ⟨rfl, by decide⟩

/-- Claim C6 (amended): for every requested id whose stored row has NULL
`birthday` or NULL `created_at`, `Get` succeeds (does not fail), and every
field among the two that is NULL decodes to the fixed sentinel
`-6795364578871345152`, the Unix-nanosecond encoding of the zero time. -/
theorem c6_null_times_decode (s : State) (ids : List String) (c : Client)
    (hc : c ∈ s.clients) (hid : c.id ∈ ids)
    (hnull : c.birthday = none ∨ c.createdAt = none) :
    ∃ l, getClients s ids = .ok l
      ∧ decodeClient c ∈ l
      ∧ (c.birthday = none → (decodeClient c).birthday = -6795364578871345152)
      ∧ (c.createdAt = none → (decodeClient c).createdAt = -6795364578871345152)
      ∧ ((decodeClient c).birthday = -6795364578871345152
          ∨ (decodeClient c).createdAt = -6795364578871345152) := by
  have hne : ids.isEmpty = false := by
    cases ids with
    | nil => cases hid
    | cons x xs => rfl
  have hbS : c.birthday = none → (decodeClient c).birthday = -6795364578871345152 := by
    intro hb
    show decodeTime c.birthday = _
    rw [hb]
    decide
  have hcaS : c.createdAt = none → (decodeClient c).createdAt = -6795364578871345152 := by
    intro hca
    show decodeTime c.createdAt = _
    rw [hca]
    decide
  refine ⟨(s.clients.filter (fun x => decide (x.id ∈ ids))).map decodeClient,
    ?_, ?_, hbS, hcaS, ?_⟩
  · unfold getClients
    rw [hne]
    rfl
  · exact List.mem_map_of_mem decodeClient (List.mem_filter.mpr ⟨hc, decide_eq_true hid⟩)
  · rcases hnull with h | h
    · exact Or.inl (hbS h)
    · exact Or.inr (hcaS h)

/-- Witness for C6 on a concrete store, at a row with only the birthday NULL
and the created_at present. -/
theorem c6_null_times_decode_witness :
    ∃ l, getClients sB ["b"] = .ok l
      ∧ decodeClient cB ∈ l
      ∧ (cB.birthday = none → (decodeClient cB).birthday = -6795364578871345152)
      ∧ (cB.createdAt = none → (decodeClient cB).createdAt = -6795364578871345152)
      ∧ ((decodeClient cB).birthday = -6795364578871345152
          ∨ (decodeClient cB).createdAt = -6795364578871345152) :=
  c6_null_times_decode sB ["b"] cB (by decide) (by decide) (Or.inl rfl)

/-- Counterexample to claim C7 as stated: on the empty input list with
`remove_duplicates` set the call does not return the empty list — it panics
(modelled as `none`). -/
theorem c7_counterexample_empty_input :
    SortItems [] true = none ∧ ¬ SortItems [] true = some [] :=
  ⟨rfl, by decide⟩

/-- Claim C7 (amended): `Sort` returns the items in ascending byte/codepoint
lexicographic order; with `remove_duplicates` unset it returns the full
sorted list including repeats (also for the empty list), and with it set it
returns, for non-empty input, the sorted list with all duplicates removed
(the empty input panics, see C4). -/
theorem c7_sort_unique (items : List String) (hne : items ≠ []) :
    SortItems items false = some (sortStrings items)
    ∧ (sortStrings items).Sorted (fun a b => strLeb a b = true)
    ∧ List.Perm (sortStrings items) items
    ∧ SortItems [] false = some []
    ∧ ∃ l, SortItems items true = some l
        ∧ l.Sorted (fun a b => strLeb a b = true)
        ∧ l.Nodup
        ∧ (∀ a, a ∈ l ↔ a ∈ items) := by
  refine ⟨rfl, sortStrings_sorted items, sortStrings_perm items, rfl, ?_⟩
  have hne2 : sortStrings items ≠ [] := by
    intro h0
    have hl := (sortStrings_perm items).length_eq
    rw [h0] at hl
    exact hne (List.eq_nil_of_length_eq_zero hl.symm)
  obtain ⟨p, rest, hsort⟩ : ∃ p rest, sortStrings items = p :: rest := by
    cases hh : sortStrings items with
    | nil => exact absurd hh hne2
    | cons p rest => exact ⟨p, rest, rfl⟩
  haveI : IsTrans String (fun a b => strLeb a b = true) := ⟨fun a b c => strLeb_trans⟩
  haveI : IsTrans String (fun a b => strLtb a b = true) := ⟨fun a b c => strLtb_trans⟩
  have hsorted := sortStrings_sorted items
  rw [hsort] at hsorted
  have hchain : List.Chain (fun a b => strLeb a b = true) p rest :=
    List.chain_iff_pairwise.mpr hsorted
  have hpair : List.Pairwise (fun a b => strLtb a b = true) (p :: keep rest p) :=
    List.chain_iff_pairwise.mp (chain_keep rest p hchain)
  refine ⟨p :: keep rest p, sortItems_true_eq items p rest hsort, ?_, ?_, ?_⟩
  · exact hpair.imp fun h => strLeb_of_strLtb h
  · exact hpair.imp fun h => strLtb_ne h
  · intro a
    rw [mem_keep_iff rest p a, ← hsort]
    exact (sortStrings_perm items).mem_iff

/-- Witness for C7 on the concrete input of the spec. -/
theorem c7_sort_unique_witness :
    SortItems ["b", "a", "b"] false = some (sortStrings ["b", "a", "b"])
    ∧ (sortStrings ["b", "a", "b"]).Sorted (fun a b => strLeb a b = true)
    ∧ List.Perm (sortStrings ["b", "a", "b"]) ["b", "a", "b"]
    ∧ SortItems [] false = some []
    ∧ ∃ l, SortItems ["b", "a", "b"] true = some l
        ∧ l.Sorted (fun a b => strLeb a b = true)
        ∧ l.Nodup
        ∧ (∀ a, a ∈ l ↔ a ∈ ["b", "a", "b"]) :=
  c7_sort_unique ["b", "a", "b"] (by decide)

/-- Claim C8: `Query` with no filters returns the id of every client in the
store, ordered by descending score; the generated statement is exactly
`SELECT id FROM clients ORDER BY score DESC` with no bound parameters. -/
theorem c8_query_no_filters_all_ids (s : State) :
    queryClientsNoFilter s = (sortScoreDesc s.clients).map Client.id
    ∧ List.Perm (sortScoreDesc s.clients) s.clients
    ∧ (sortScoreDesc s.clients).Sorted (fun a b => b.score ≤ a.score)
    ∧ queryClientsStmt ⟨none, none, none, none, none⟩
        = ("SELECT id FROM clients ORDER BY score DESC", []) := by
  refine ⟨rfl, List.perm_insertionSort _ _, ?_, by decide⟩
  haveI : IsTotal Client (fun a b => b.score ≤ a.score) :=
    ⟨fun a b => le_total b.score a.score⟩
  haveI : IsTrans Client (fun a b => b.score ≤ a.score) :=
    ⟨fun a b c hab hbc => le_trans hbc hab⟩
  exact List.sorted_insertionSort _ _

/-- Claim C9: `Delete` removes exactly the rows with the given id, returns
success even when no row matched, and is idempotent. -/
theorem c9_delete_idempotent_success (s : State) (id : String) :
    deleteClient s id = .ok (delState s id)
    ∧ (∀ c ∈ (delState s id).clients, c.id ≠ id)
    ∧ deleteClient (delState s id) id = .ok (delState s id)
    ∧ (s.clients.filter (fun c => decide (c.id = id)) = [] → delState s id = s) := by
  refine ⟨rfl, ?_, ?_, ?_⟩
  · intro c hc
    simp only [delState] at hc
    exact of_decide_eq_true (List.mem_filter.mp hc).2
  · show Except.ok (delState (delState s id) id) = Except.ok (delState s id)
    have hdd : delState (delState s id) id = delState s id := by
      unfold delState
      simp [List.filter_filter]
    rw [hdd]
  · intro hnone
    have hall : ∀ c ∈ s.clients, (fun c => decide (c.id ≠ id)) c = true := by
      intro c hc
      have hne : ¬ (decide (c.id = id) = true) := List.filter_eq_nil_iff.mp hnone c hc
      simp only [decide_eq_true_eq] at hne ⊢
      exact hne
    unfold delState
    rw [List.filter_eq_self.mpr hall]

/-- Witness for C9: deleting an id that is not in the store succeeds and
leaves the store unchanged. -/
theorem c9_delete_idempotent_success_witness :
    deleteClient s0 "zzz" = .ok (delState s0 "zzz")
    ∧ delState s0 "zzz" = s0
    ∧ deleteClient (delState s0 "zzz") "zzz" = .ok (delState s0 "zzz") :=
  ⟨(c9_delete_idempotent_success s0 "zzz").1,
   (c9_delete_idempotent_success s0 "zzz").2.2.2 (by decide),
   (c9_delete_idempotent_success s0 "zzz").2.2.1⟩

/-- Claim C10: `NewClient` treats a request birthday equal to zero as absent —
the `birthday` column is omitted from the INSERT column list and the stored
row has a NULL birthday, identical to the row produced for a request with no
birthday at all. -/
theorem c10_zero_birthday_omitted (id : String) (req : NewClientRequest) (now : Int)
    (h : req.birthday = 0) :
    newClientCols req = ["id", "name", "score"]
    ∧ (insertedClientRow id req now).birthday = none
    ∧ insertedClientRow id req now = insertedClientRow id ⟨req.name, 0, req.score⟩ now := by
  refine ⟨?_, ?_, ?_⟩ <;> simp [newClientCols, insertedClientRow, h]

/-- Witness for C10 at a concrete request with birthday zero. -/
theorem c10_zero_birthday_omitted_witness :
    newClientCols ⟨"bob", 0, 7⟩ = ["id", "name", "score"]
    ∧ (insertedClientRow "x" ⟨"bob", 0, 7⟩ 99).birthday = none
    ∧ insertedClientRow "x" ⟨"bob", 0, 7⟩ 99
        = insertedClientRow "x" ⟨"bob", 0, 7⟩ 99 :=
  c10_zero_birthday_omitted "x" ⟨"bob", 0, 7⟩ 99 rfl

end Svc
